import Mathlib

/-!
Verification of the callback-driven training-loop core presented in the
fastai2022part2studygroup notebooks (lesson14 Callbacks, lesson15 Learner part 1,
and the Learner part 2 notebook).

The embedding models the dispatch core exactly as written in the notebooks:
the seven phase-scoped cancellation exceptions, the two versions of
`Callback.__call__`, the sorted per-event dispatch (`_call_one` and `run_cbs`),
the `_with_events` bracketing primitive, and the nested training loop
(`fit` / `_do_fit` / `_do_epoch` / `_do_epoch_train` / `_do_epoch_validate` /
`all_batches` / `one_batch` / `_do_one_batch`), together with `_split`,
`add_cb` and `remove_cb`.

Python exceptions are modelled with an explicit exception channel: every
computation on the learner state returns the updated state, the list of
observable dispatch events (the trace), and an optional raised exception.
State mutation is never rolled back when an exception is raised, exactly as in
Python.  Callback handler bodies are arbitrary parameters (`Handlers`), so the
theorems quantify over every possible handler behaviour.  External
collaborators out of the scope of the dispatch core (tensors, devices,
gradients, the optimizer) are modelled as opaque integer-valued functions or as
no-ops on the modelled state, per the scope section of the specification.
-/

namespace LearnerSpec

/-- The seven cooperative cancellation-signal kinds, one per bracketed phase:
CancelFitException, CancelEpochException, CancelTrainException,
CancelValidException, CancelBatchException, CancelBackwardException,
CancelStepException. -/
inductive CancelKind
  | fit
  | epoch
  | train
  | validate
  | batch
  | backward
  | step
deriving DecidableEq, Repr

/-- A raised Python exception: one of the seven cancellation signals, or a plain
error carrying its message (`e.args[0]`). -/
inductive Exc
  | cancel (k : CancelKind)
  | err (msg : String)
deriving DecidableEq, Repr

/-- One observable step of the dispatch machinery: `disp ev` marks the learner
dispatching event `ev` to its callback list (`_call_one` reached with a valid
event name), `call i ev` marks the handler of the callback at registration
index `i` being invoked for `ev`, and `fin` marks the `_end_cleanup`
finaliser running. -/
inductive Entry
  | disp (ev : String)
  | call (i : Nat) (ev : String)
  | fin
deriving DecidableEq, Repr

/-- A callback: `order` (numeric dispatch key, lower runs first), the global
enable flag `run`, and the phase-scoped enable flags `run_train` and
`run_valid`, as in the `Callback` class of the lesson14 notebook.  `name` is
the class name used in wrapped error messages.  The handler bodies themselves
are supplied separately (see `Handlers`). -/
structure Cb where
  name : String
  order : Int
  run : Bool := true
  run_train : Bool := true
  run_valid : Bool := true
deriving DecidableEq, Repr

/-- The mutable learner state observed and mutated by callbacks: the `training`
flag, the registered callback list (registration order), the epoch/iteration
counters, the current dataloader and the two dataloaders of the `dls` object
(a batch is a tuple of tensors, modelled `List Int`), the `n_inp` attribute of
`dls` when set, the current input/target split, prediction and loss, and a
scratch list that concrete scenario handlers may use as storage. -/
structure St where
  training : Bool := false
  cbs : List Cb := []
  epoch : Nat := 0
  n_epoch : Nat := 0
  iter : Nat := 0
  n_iter : Nat := 0
  dl : List (List Int) := []
  dls_train : List (List Int) := []
  dls_valid : List (List Int) := []
  dls_n_inp : Option Nat := none
  xb : List Int := []
  yb : List Int := []
  pred : Int := 0
  loss_grad : Int := 0
  loss : Int := 0
  scratch : List Int := []
deriving DecidableEq, Repr, Inhabited

/-- Result of running a piece of the training machinery: the final state, the
emitted trace of observable entries, and the exception propagating out of it,
if any. -/
structure Out where
  st : St
  log : List Entry
  exc : Option Exc
deriving DecidableEq, Repr

/-- The handler bodies: `H i ev s` runs the handler that the callback at
registration index `i` defines for event `ev`, returning the mutated state and
an optionally raised exception.  A callback that does not define a handler for
`ev` is a no-op, `fun s => (s, none)` (both dispatchers treat a missing method
as skip: `getcallable` returns `noop`, `run_cbs` checks `method is not None`). -/
abbrev Handlers : Type := Nat → String → St → St × Option Exc

/-- External collaborators of the loop (spec section 6): the model is a
callable from the inputs to a prediction, the loss function takes the
prediction and the targets.  Gradient production, the optimizer step and
gradient zeroing act outside the modelled state and are no-ops here. -/
structure Ctx where
  H : Handlers
  model : List Int → Int
  loss_func : Int → List Int → Int

/-- The train/validate-scoped event subset.  Modelled from the spec: the source
imports `_inner_loop` from the framework (`from fastai.callback.core import
_events, _inner_loop`), whose definition is not under src/; the spec describes
it as the events that occur inside the train/validate subtree, which are the
batch-level events. -/
def inner_loop : List String :=
  ["before_batch", "after_pred", "after_loss", "before_backward",
   "after_cancel_backward", "after_backward", "before_step",
   "after_cancel_step", "after_step", "after_cancel_batch", "after_batch"]

/-- The closed registry of valid lifecycle event names (the fastcore `event`
class).  The lesson14 notebook lists the events and states that every event
with a cancel exception also has an `after_cancel_*` marker; `after_create` is
the unpaired creation marker. -/
def valid_events : List String :=
  ["after_create", "before_fit", "before_epoch", "before_train", "before_batch",
   "after_pred", "after_loss", "before_backward", "after_cancel_backward",
   "after_backward", "before_step", "after_step", "after_cancel_step",
   "after_cancel_batch", "after_batch", "after_cancel_train", "after_train",
   "before_validate", "after_cancel_validate", "after_validate",
   "after_cancel_epoch", "after_epoch", "after_cancel_fit", "after_fit"]

/-- The message built by `modify_exception(e, f..., replace=True)` in
`Callback.__call__`: it names the offending callback class and the event. -/
def wrap_msg (cls ev msg : String) : String :=
  "Exception occured in `" ++ cls ++ "` when calling event `" ++ ev ++ "`:\n\t" ++ msg

/-- `self.run = True`: set the `run` flag of the callback at index `i`. -/
def setRun (s : St) (i : Nat) : St :=
  match s.cbs[i]? with
  | some cb => { s with cbs := s.cbs.set i { cb with run := true } }
  | none => s

/-- `Callback.__call__` as defined in the lesson14 Callbacks notebook (the full
fastai version): compute the `_run` gate from `_inner_loop`, `run_train`,
`run_valid` and the `training` attribute (the state always carries `training`,
so the `getattr` defaults never apply); if `self.run and _run`, invoke the
handler, re-raising the seven cancellation kinds unmodified and wrapping any
other exception with `modify_exception`; finally, when no exception escaped,
reset `self.run` to `True` if the event is `after_fit`. -/
def cbCall (H : Handlers) (i : Nat) (ev : String) (s : St) : Out :=
  match s.cbs[i]? with
  | none => ⟨s, [], none⟩
  | some cb =>
    let gate := cb.run &&
      (!(inner_loop.contains ev) || (cb.run_train && s.training) ||
        (cb.run_valid && !s.training))
    if gate then
      match H i ev s with
      | (s1, none) =>
          let s2 := if ev == "after_fit" then setRun s1 i else s1
          ⟨s2, [Entry.call i ev], none⟩
      | (s1, some (Exc.cancel k)) => ⟨s1, [Entry.call i ev], some (Exc.cancel k)⟩
      | (s1, some (Exc.err m)) =>
          ⟨s1, [Entry.call i ev], some (Exc.err (wrap_msg cb.name ev m))⟩
    else
      let s2 := if ev == "after_fit" then setRun s i else s
      ⟨s2, [], none⟩

/-- `Callback.__call__` as presented in the Learner part 2 notebook: the same
try/except body guarded only by `if self.run`, with no `_run` gate and no
`after_fit` reset.  When `self.run` is falsy the local `res` is never bound,
so the trailing `return res` raises UnboundLocalError in Python; that error is
modelled as a plain error exception. -/
def cbCallSimple (H : Handlers) (i : Nat) (ev : String) (s : St) : Out :=
  match s.cbs[i]? with
  | none => ⟨s, [], none⟩
  | some cb =>
    if cb.run then
      match H i ev s with
      | (s1, none) => ⟨s1, [Entry.call i ev], none⟩
      | (s1, some (Exc.cancel k)) => ⟨s1, [Entry.call i ev], some (Exc.cancel k)⟩
      | (s1, some (Exc.err m)) =>
          ⟨s1, [Entry.call i ev], some (Exc.err (wrap_msg cb.name ev m))⟩
    else
      ⟨s, [], some (Exc.err "local variable res referenced before assignment")⟩

/-- The `order` attribute of the callback at registration index `i` (the
default value 0 is irrelevant: the index lists range over valid indices). -/
def orderAt (cbs : List Cb) (i : Nat) : Int :=
  ((cbs[i]?).map Cb.order).getD 0

/-- The registration indices sorted by `order`.  Both dispatchers sort with the
stable Python `sorted`, keyed on the `order` attribute, in `Learner._call_one`
and in `run_cbs` alike; a stable sort by `order` of a list of
distinct increasing indices is insertion sort by `order`. -/
def sortedIdx (cbs : List Cb) : List Nat :=
  List.insertionSort (fun i j => orderAt cbs i ≤ orderAt cbs j) (List.range cbs.length)

/-- The dispatch loop of `_call_one`: for every callback of the list sorted by
`order`, call it with the event name.  An exception raised by one callback aborts the loop and
propagates. -/
def runCbs (H : Handlers) (ev : String) : List Nat → St → Out
  | [], s => ⟨s, [], none⟩
  | i :: rest, s =>
    let o := cbCall H i ev s
    match o.exc with
    | none =>
        let o2 := runCbs H ev rest o.st
        ⟨o2.st, o.log ++ o2.log, o2.exc⟩
    | some e => ⟨o.st, o.log, some e⟩

/-- `Learner._call_one` (which `Learner.__call__` maps over): raise on an event
name outside the registry, otherwise call every callback, sorted by `order`,
for the event. -/
def call_one (H : Handlers) (ev : String) (s : St) : Out :=
  if valid_events.contains ev then
    let o := runCbs H ev (sortedIdx s.cbs) s
    ⟨o.st, Entry.disp ev :: o.log, o.exc⟩
  else
    ⟨s, [], some (Exc.err ("missing " ++ ev))⟩

/-- `run_cbs` from the Learner part 2 notebook (the MiniAI dispatcher): call
the method of every callback sorted by `order`; no gating, no exception
translation. -/
def run_cbs_go (H : Handlers) (ev : String) : List Nat → St → Out
  | [], s => ⟨s, [], none⟩
  | i :: rest, s =>
    match H i ev s with
    | (s1, none) =>
        let o2 := run_cbs_go H ev rest s1
        ⟨o2.st, Entry.call i ev :: o2.log, o2.exc⟩
    | (s1, some e) => ⟨s1, [Entry.call i ev], some e⟩

/-- `run_cbs(cbs, method_nm)`: sort by `order`, then invoke each present
method. -/
def run_cbs (H : Handlers) (ev : String) (s : St) : Out :=
  run_cbs_go H ev (sortedIdx s.cbs) s

/-- Sequencing with Python exception semantics: run `a`, and only if it raised
nothing continue with `k`; the trace accumulates, the state is never rolled
back. -/
def andThen (a : Out) (k : St → Out) : Out :=
  match a.exc with
  | none =>
      let b := k a.st
      ⟨b.st, a.log ++ b.log, b.exc⟩
  | some _ => a

/-- The `try` region of `_with_events`: dispatch the before event of the
phase, then run the body.
An exception raised by the before-dispatch skips the body. -/
def tryPhase (H : Handlers) (f : St → Out) (nm : String) (s : St) : Out :=
  let b := call_one H ("before_" ++ nm) s
  match b.exc with
  | none =>
      let r := f b.st
      ⟨r.st, b.log ++ r.log, r.exc⟩
  | some e => ⟨b.st, b.log, some e⟩

/-- `Learner._with_events(f, event_type, ex, final=noop)`: run the try region;
a raised exception of exactly the kind `ex` is caught and answered by an
`after_cancel_{event_type}` dispatch, any other exception propagates
immediately; when nothing is left propagating, dispatch `after_{event_type}`
and then run `final`.  Note the Python asymmetry: an exception raised by the
`after_cancel` dispatch, by the `after` dispatch or by `final` itself
propagates, skipping whatever follows it. -/
def with_events (H : Handlers) (f : St → Out) (nm : String) (ex : CancelKind)
    (final : St → Out) (s : St) : Out :=
  let t := tryPhase H f nm s
  let c : Out :=
    match t.exc with
    | some (Exc.cancel k) =>
        if k = ex then
          let a := call_one H ("after_cancel_" ++ nm) t.st
          ⟨a.st, t.log ++ a.log, a.exc⟩
        else ⟨t.st, t.log, some (Exc.cancel k)⟩
    | r => ⟨t.st, t.log, r⟩
  match c.exc with
  | some e => ⟨c.st, c.log, some e⟩
  | none =>
    let a := call_one H ("after_" ++ nm) c.st
    match a.exc with
    | some e => ⟨a.st, c.log ++ a.log, some e⟩
    | none =>
        let z := final a.st
        ⟨z.st, c.log ++ a.log ++ z.log, z.exc⟩

/-- The `noop` default for the `final` argument of `_with_events`. -/
def noopF (s : St) : Out := ⟨s, [], none⟩

/-- Modelled from the spec: `Learner._end_cleanup`, the `on_finally` cleanup
hook passed by `fit`, whose body is not under src/.  Its internal field
resetting is irrelevant to the claims; it is modelled as marking its own
invocation in the trace. -/
def end_cleanup (s : St) : Out := ⟨s, [Entry.fin], none⟩

/-- `Learner._split`: read the input count from the `n_inp` attribute of
`dls` when present, defaulting to 1 if the batch has length 1 and to the
batch length minus one otherwise; the first `i` elements become `xb`, the
rest become `yb`.  When the batch is empty the
Python default index is -1 and both slices are empty, which coincides with the
truncated subtraction here. -/
def _split (n_inp : Option Nat) (b : List Int) : List Int × List Int :=
  let i := n_inp.getD (if b.length == 1 then 1 else b.length - 1)
  (b.take i, b.drop i)

/-- `Learner._set_device`: moves the batch to the device of the model, which
does not change the values of the batch; device placement is outside the
modelled state. -/
def _set_device (b : List Int) : List Int := b

/-- `Learner._backward`: `self.loss_grad.backward()`.  Gradient accumulation
lives in the tensors owned by the external autograd collaborator, outside the
modelled state. -/
def _backward (s : St) : Out := ⟨s, [], none⟩

/-- `Learner._step`: `self.opt.step()`, a call into the external optimizer
collaborator, outside the modelled state. -/
def _step (s : St) : Out := ⟨s, [], none⟩

/-- `Learner._do_one_batch`: compute the prediction, dispatch `after_pred`;
when targets exist compute `loss_grad` and its clone `loss`; dispatch
`after_loss`; return unless training with targets; run the `backward` and
`step` brackets; finally `self.opt.zero_grad()` (an external-optimizer call,
outside the modelled state). -/
def _do_one_batch (c : Ctx) (s : St) : Out :=
  let s := { s with pred := c.model s.xb }
  andThen (call_one c.H "after_pred" s) fun s =>
    let s :=
      if s.yb.length ≠ 0 then
        let g := c.loss_func s.pred s.yb
        { s with loss_grad := g, loss := g }
      else s
    andThen (call_one c.H "after_loss" s) fun s =>
      if !s.training || s.yb.length == 0 then ⟨s, [], none⟩
      else
        andThen (with_events c.H _backward "backward" CancelKind.backward noopF s) fun s =>
          with_events c.H _step "step" CancelKind.step noopF s

/-- `Learner.one_batch(i, b)`: record the iteration index, move the batch to
the device, split it into inputs and targets, and run the batch bracket. -/
def one_batch (c : Ctx) (i : Nat) (b : List Int) (s : St) : Out :=
  let s := { s with iter := i }
  let b := _set_device b
  let xy := _split s.dls_n_inp b
  let s := { s with xb := xy.1, yb := xy.2 }
  with_events c.H (_do_one_batch c) "batch" CancelKind.batch noopF s

/-- The enumeration loop of `all_batches`: `for o in enumerate(self.dl):
self.one_batch(*o)`.  An exception aborts the remaining batches. -/
def all_batches_go (c : Ctx) : List (List Int) → Nat → St → Out
  | [], _, s => ⟨s, [], none⟩
  | b :: rest, i, s =>
      andThen (one_batch c i b s) fun s => all_batches_go c rest (i + 1) s

/-- `Learner.all_batches`: set `n_iter` and iterate the current dataloader. -/
def all_batches (c : Ctx) (s : St) : Out :=
  let s := { s with n_iter := s.dl.length }
  all_batches_go c s.dl 0 s

/-- `Learner._do_epoch_train`: point `dl` at the train loader and run the
train bracket around `all_batches`. -/
def _do_epoch_train (c : Ctx) (s : St) : Out :=
  let s := { s with dl := s.dls_train }
  with_events c.H (all_batches c) "train" CancelKind.train noopF s

/-- `Learner._do_epoch_validate`: point `dl` at the validation loader and run
the validate bracket around `all_batches` (under `torch.no_grad()`, a
gradient-tracking toggle outside the modelled state). -/
def _do_epoch_validate (c : Ctx) (s : St) : Out :=
  let s := { s with dl := s.dls_valid }
  with_events c.H (all_batches c) "validate" CancelKind.validate noopF s

/-- `Learner._do_epoch`: the train subtree, then the validate subtree. -/
def _do_epoch (c : Ctx) (s : St) : Out :=
  andThen (_do_epoch_train c s) (_do_epoch_validate c)

/-- The epoch loop of `_do_fit`: for every epoch index in range, store it and
run the epoch bracket around `_do_epoch` with `CancelEpochException` as its
cancel kind; structured on the remaining epoch count. -/
def _do_fit_go (c : Ctx) : Nat → Nat → St → Out
  | 0, _, s => ⟨s, [], none⟩
  | k + 1, e, s =>
      andThen (with_events c.H (_do_epoch c) "epoch" CancelKind.epoch noopF
          { s with epoch := e }) fun s =>
        _do_fit_go c k (e + 1) s

/-- `Learner._do_fit`: loop over all epochs. -/
def _do_fit (c : Ctx) (s : St) : Out :=
  _do_fit_go c s.n_epoch 0 s

/-- `Learner.fit(n_epoch)`: store `n_epoch` and run the fit bracket around
`_do_fit` with `_end_cleanup` as finaliser.  The optimizer construction,
hyper-parameter plumbing and the temporary-callback context manager of the
source are external-collaborator setup outside the dispatch core. -/
def fit (c : Ctx) (n_epoch : Nat) (s : St) : Out :=
  let s := { s with n_epoch := n_epoch }
  with_events c.H (_do_fit c) "fit" CancelKind.fit end_cleanup s

/-- `Learner.add_cb(cb)`: set the back-reference, expose the callback as an
attribute of the learner (both outside the modelled state) and append it to
the registration list.  The result carries an exception channel to make the
absence of any raised error observable. -/
def add_cb (s : St) (cb : Cb) : St × Option Exc :=
  ({ s with cbs := s.cbs ++ [cb] }, none)

/-- `Learner.remove_cb(cb)` on an instance: clear the back-reference and the
learner attribute (outside the modelled state), then
`if cb in self.cbs: self.cbs.remove(cb)` — removal of the first matching
entry, guarded by membership; nothing is ever raised. -/
def remove_cb (s : St) (cb : Cb) : St × Option Exc :=
  if cb ∈ s.cbs then ({ s with cbs := s.cbs.erase cb }, none) else (s, none)

/-! ### Dispatch-order infrastructure -/

/-- Strict dispatch order on registration indices: strictly smaller `order`
attribute, or equal `order` and earlier registration. -/
def lexReg (cbs : List Cb) (i j : Nat) : Prop :=
  orderAt cbs i < orderAt cbs j ∨ (orderAt cbs i = orderAt cbs j ∧ i < j)

/-- The registration indices whose handlers were invoked, in trace order. -/
def callIdxs (l : List Entry) : List Nat :=
  l.filterMap fun e =>
    match e with
    | Entry.call i _ => some i
    | _ => none

lemma callIdxs_append (l1 l2 : List Entry) :
    callIdxs (l1 ++ l2) = callIdxs l1 ++ callIdxs l2 :=
  List.filterMap_append l1 l2 _

lemma pairwise_orderedInsert (cbs : List Cb) (i : Nat) :
    ∀ l : List Nat, l.Pairwise (lexReg cbs) → (∀ j ∈ l, i < j) →
      (List.orderedInsert (fun a b => orderAt cbs a ≤ orderAt cbs b) i l).Pairwise
        (lexReg cbs)
  | [], _, _ => by simp [List.orderedInsert]
  | b :: t, hp, hgt => by
    rw [List.orderedInsert]
    rcases List.pairwise_cons.mp hp with ⟨hbt, hpt⟩
    split
    · rename_i hib
      refine List.pairwise_cons.mpr ⟨?_, hp⟩
      intro x hx
      rcases List.mem_cons.mp hx with rfl | hxt
      · rcases lt_or_eq_of_le hib with h | h
        · exact Or.inl h
        · exact Or.inr ⟨h, hgt x (List.mem_cons_self _ _)⟩
      · rcases hbt x hxt with h | ⟨he, _⟩
        · exact Or.inl (lt_of_le_of_lt hib h)
        · rcases lt_or_eq_of_le hib with h2 | h2
          · exact Or.inl (lt_of_lt_of_eq h2 he)
          · exact Or.inr ⟨h2.trans he, hgt x (List.mem_cons_of_mem _ hxt)⟩
    · rename_i hnib
      have hbi : orderAt cbs b < orderAt cbs i := lt_of_not_le hnib
      refine List.pairwise_cons.mpr ⟨?_, ?_⟩
      · intro x hx
        rcases (List.mem_orderedInsert _).mp hx with rfl | hxt
        · exact Or.inl hbi
        · exact hbt x hxt
      · exact pairwise_orderedInsert cbs i t hpt fun j hj =>
          hgt j (List.mem_cons_of_mem _ hj)

lemma pairwise_insertionSort (cbs : List Cb) :
    ∀ l : List Nat, l.Pairwise (· < ·) →
      (List.insertionSort (fun a b => orderAt cbs a ≤ orderAt cbs b) l).Pairwise
        (lexReg cbs)
  | [], _ => by simp [List.insertionSort]
  | a :: l, hp => by
    rw [List.insertionSort]
    rcases List.pairwise_cons.mp hp with ⟨hal, hpl⟩
    refine pairwise_orderedInsert cbs a _ (pairwise_insertionSort cbs l hpl) ?_
    intro j hj
    exact hal j ((List.perm_insertionSort _ _).mem_iff.mp hj)

/-- A stable sort by `order` of the registration indices is sorted by the
strict (order, registration index) dispatch order. -/
lemma sortedIdx_pairwise (cbs : List Cb) :
    (sortedIdx cbs).Pairwise (lexReg cbs) :=
  pairwise_insertionSort cbs _ (List.pairwise_lt_range _)

lemma cbCall_log (H : Handlers) (i : Nat) (ev : String) (s : St) :
    (cbCall H i ev s).log = [] ∨ (cbCall H i ev s).log = [Entry.call i ev] := by
  simp only [cbCall]
  repeat' split
  all_goals first
    | exact Or.inl rfl
    | exact Or.inr rfl

lemma cbCall_callIdxs (H : Handlers) (i : Nat) (ev : String) (s : St) :
    List.Sublist (callIdxs (cbCall H i ev s).log) [i] := by
  rcases cbCall_log H i ev s with h | h <;> rw [h] <;> simp [callIdxs]

lemma runCbs_callIdxs (H : Handlers) (ev : String) :
    ∀ (idxs : List Nat) (s : St),
      List.Sublist (callIdxs (runCbs H ev idxs s).log) idxs
  | [], s => by simp [runCbs, callIdxs]
  | i :: rest, s => by
    rw [runCbs]
    rcases h1 : cbCall H i ev s with ⟨s1, l1, e1⟩
    have hsub : List.Sublist (callIdxs l1) [i] := by
      have := cbCall_callIdxs H i ev s
      rwa [h1] at this
    cases e1 with
    | none =>
      simp only
      rw [callIdxs_append]
      rcases List.sublist_singleton.mp hsub with h | h <;> rw [h]
      · exact List.Sublist.cons i (runCbs_callIdxs H ev rest s1)
      · exact List.Sublist.cons₂ i (runCbs_callIdxs H ev rest s1)
    | some e =>
      simp only
      exact hsub.trans (List.Sublist.cons₂ i (List.nil_sublist rest))

lemma run_cbs_go_callIdxs (H : Handlers) (ev : String) :
    ∀ (idxs : List Nat) (s : St),
      List.Sublist (callIdxs (run_cbs_go H ev idxs s).log) idxs
  | [], s => by simp [run_cbs_go, callIdxs]
  | i :: rest, s => by
    rw [run_cbs_go]
    rcases h1 : H i ev s with ⟨s1, e1⟩
    cases e1 with
    | none =>
      simp only [callIdxs, List.filterMap_cons]
      exact List.Sublist.cons₂ i (run_cbs_go_callIdxs H ev rest s1)
    | some e =>
      simp [callIdxs]

/-- Claim C3: for every event dispatch over any list of registered callbacks,
the handlers are invoked in non-decreasing `order`, with equal orders invoked
in registration order (index order): the sequence of invoked registration
indices is strictly increasing in the lexicographic (order, index) key, both
for the fastai dispatcher `_call_one` and for the MiniAI dispatcher
`run_cbs`, for every event name, every handler behaviour and every state. -/
theorem c3_dispatch_order_sorted (H : Handlers) (ev : String) (s : St) :
    (callIdxs (call_one H ev s).log).Pairwise (lexReg s.cbs) ∧
      (callIdxs (run_cbs H ev s).log).Pairwise (lexReg s.cbs) := by
  constructor
  · unfold call_one
    split
    · simp only [callIdxs, List.filterMap_cons]
      exact (sortedIdx_pairwise s.cbs).sublist (runCbs_callIdxs H ev (sortedIdx s.cbs) s)
    · simp [callIdxs]
  · exact (sortedIdx_pairwise s.cbs).sublist (run_cbs_go_callIdxs H ev (sortedIdx s.cbs) s)

/-! ### Trace structure -/

/-- A trace fragment that consists only of handler-invocation entries (the
per-callback loops emit no dispatch markers and no cleanup markers). -/
def OnlyCalls (l : List Entry) : Prop :=
  ∀ e ∈ l, ∃ i ev, e = Entry.call i ev

lemma onlyCalls_cbCall (H : Handlers) (i : Nat) (ev : String) (s : St) :
    OnlyCalls (cbCall H i ev s).log := by
  rcases cbCall_log H i ev s with h | h <;> rw [h]
  · intro e he; cases he
  · intro e he
    rcases List.mem_singleton.mp he with rfl
    exact ⟨i, ev, rfl⟩

lemma onlyCalls_append {l1 l2 : List Entry} (h1 : OnlyCalls l1) (h2 : OnlyCalls l2) :
    OnlyCalls (l1 ++ l2) := by
  intro e he
  rcases List.mem_append.mp he with h | h
  · exact h1 e h
  · exact h2 e h

lemma onlyCalls_runCbs (H : Handlers) (ev : String) :
    ∀ (idxs : List Nat) (s : St), OnlyCalls (runCbs H ev idxs s).log
  | [], s => by intro e he; cases he
  | i :: rest, s => by
    rw [runCbs]
    rcases h1 : cbCall H i ev s with ⟨s1, l1, e1⟩
    have hl1 : OnlyCalls l1 := by
      have := onlyCalls_cbCall H i ev s
      rwa [h1] at this
    cases e1 with
    | none => exact onlyCalls_append hl1 (onlyCalls_runCbs H ev rest s1)
    | some e => exact hl1

lemma onlyCalls_count_disp {l : List Entry} (h : OnlyCalls l) (ev : String) :
    l.count (Entry.disp ev) = 0 := by
  refine List.count_eq_zero.mpr fun hm => ?_
  rcases h _ hm with ⟨i, ev2, h2⟩
  cases h2

/-- A valid dispatch marks itself exactly once in its own trace. -/
lemma call_one_count_disp_self (H : Handlers) (ev : String) (s : St)
    (hv : valid_events.contains ev = true) :
    (call_one H ev s).log.count (Entry.disp ev) = 1 := by
  unfold call_one
  rw [if_pos hv]
  simp [List.count_cons, onlyCalls_count_disp (onlyCalls_runCbs H ev (sortedIdx s.cbs) s) ev]

lemma call_one_count_disp_ne (H : Handlers) (ev ev2 : String) (s : St)
    (hne : ev2 ≠ ev) :
    (call_one H ev s).log.count (Entry.disp ev2) = 0 := by
  unfold call_one
  split
  · simp [List.count_cons, onlyCalls_count_disp (onlyCalls_runCbs H ev (sortedIdx s.cbs) s) ev2,
      hne]
  · rfl

lemma notMem_call_one (H : Handlers) (ev ev2 : String) (s : St) (hne : ev2 ≠ ev) :
    Entry.disp ev2 ∉ (call_one H ev s).log := by
  have := call_one_count_disp_ne H ev ev2 s hne
  exact List.count_eq_zero.mp this

lemma notMem_andThen {x : Entry} {a : Out} {k : St → Out}
    (ha : x ∉ a.log) (hk : ∀ s, x ∉ (k s).log) : x ∉ (andThen a k).log := by
  unfold andThen
  split
  · simp only [List.mem_append]
    rintro (h | h)
    · exact ha h
    · exact hk _ h
  · exact ha

lemma notMem_tryPhase {ev : String} {H : Handlers} {f : St → Out} {nm : String}
    (hb : ev ≠ "before_" ++ nm) (hf : ∀ s, Entry.disp ev ∉ (f s).log) (s : St) :
    Entry.disp ev ∉ (tryPhase H f nm s).log := by
  simp only [tryPhase]
  split
  · simp only [List.mem_append]
    rintro (h | h)
    · exact notMem_call_one H _ ev s hb h
    · exact hf _ h
  · exact notMem_call_one H _ ev s hb

lemma notMem_with_events {ev : String} {H : Handlers} {f : St → Out} {nm : String}
    {ex : CancelKind} {final : St → Out}
    (hb : ev ≠ "before_" ++ nm) (hc : ev ≠ "after_cancel_" ++ nm)
    (ha : ev ≠ "after_" ++ nm)
    (hf : ∀ s, Entry.disp ev ∉ (f s).log)
    (hfin : ∀ s, Entry.disp ev ∉ (final s).log) (s : St) :
    Entry.disp ev ∉ (with_events H f nm ex final s).log := by
  have ht : Entry.disp ev ∉ (tryPhase H f nm s).log := notMem_tryPhase hb hf s
  have hac : ∀ s2, Entry.disp ev ∉ (call_one H ("after_cancel_" ++ nm) s2).log :=
    fun s2 => notMem_call_one H _ ev s2 hc
  have haf : ∀ s2, Entry.disp ev ∉ (call_one H ("after_" ++ nm) s2).log :=
    fun s2 => notMem_call_one H _ ev s2 ha
  simp only [with_events]
  repeat' split
  all_goals
    simp_all only [List.mem_append, not_or, List.not_mem_nil, not_false_iff, and_true]

/-- No dispatch of `after_fit` is ever emitted from inside the loop body below
the fit bracket: the nested loop only dispatches the epoch, train, validate,
batch, backward and step bracket events and the prediction and loss markers.
The following chain of lemmas establishes this level by level. -/
lemma af_notMem_do_one_batch (c : Ctx) (s : St) :
    Entry.disp "after_fit" ∉ (_do_one_batch c s).log := by
  simp only [_do_one_batch]
  refine notMem_andThen (notMem_call_one _ _ _ _ (by decide)) fun s1 => ?_
  refine notMem_andThen (notMem_call_one _ _ _ _ (by decide)) fun s2 => ?_
  split
  · simp
  · refine notMem_andThen ?_ fun s3 => ?_
    · exact notMem_with_events (by decide) (by decide) (by decide)
        (fun s4 => by simp [_backward]) (fun s4 => by simp [noopF]) _
    · exact notMem_with_events (by decide) (by decide) (by decide)
        (fun s4 => by simp [_step]) (fun s4 => by simp [noopF]) _

lemma af_notMem_one_batch (c : Ctx) (i : Nat) (b : List Int) (s : St) :
    Entry.disp "after_fit" ∉ (one_batch c i b s).log := by
  simp only [one_batch]
  exact notMem_with_events (by decide) (by decide) (by decide)
    (fun s4 => af_notMem_do_one_batch c s4) (fun s4 => by simp [noopF]) _

lemma af_notMem_all_batches_go (c : Ctx) :
    ∀ (dl : List (List Int)) (i : Nat) (s : St),
      Entry.disp "after_fit" ∉ (all_batches_go c dl i s).log
  | [], _, s => by simp [all_batches_go]
  | b :: rest, i, s => by
    simp only [all_batches_go]
    exact notMem_andThen (af_notMem_one_batch c i b s) fun s1 =>
      af_notMem_all_batches_go c rest (i + 1) s1

lemma af_notMem_all_batches (c : Ctx) (s : St) :
    Entry.disp "after_fit" ∉ (all_batches c s).log := by
  simp only [all_batches]
  exact af_notMem_all_batches_go c _ 0 _

lemma af_notMem_do_epoch_train (c : Ctx) (s : St) :
    Entry.disp "after_fit" ∉ (_do_epoch_train c s).log := by
  simp only [_do_epoch_train]
  exact notMem_with_events (by decide) (by decide) (by decide)
    (fun s4 => af_notMem_all_batches c s4) (fun s4 => by simp [noopF]) _

lemma af_notMem_do_epoch_validate (c : Ctx) (s : St) :
    Entry.disp "after_fit" ∉ (_do_epoch_validate c s).log := by
  simp only [_do_epoch_validate]
  exact notMem_with_events (by decide) (by decide) (by decide)
    (fun s4 => af_notMem_all_batches c s4) (fun s4 => by simp [noopF]) _

lemma af_notMem_do_epoch (c : Ctx) (s : St) :
    Entry.disp "after_fit" ∉ (_do_epoch c s).log := by
  simp only [_do_epoch]
  exact notMem_andThen (af_notMem_do_epoch_train c s) fun s1 =>
    af_notMem_do_epoch_validate c s1

lemma af_notMem_do_fit_go (c : Ctx) :
    ∀ (k e : Nat) (s : St), Entry.disp "after_fit" ∉ (_do_fit_go c k e s).log
  | 0, _, s => by simp [_do_fit_go]
  | k + 1, e, s => by
    simp only [_do_fit_go]
    refine notMem_andThen ?_ fun s1 => af_notMem_do_fit_go c k (e + 1) s1
    exact notMem_with_events (by decide) (by decide) (by decide)
      (fun s4 => af_notMem_do_epoch c s4) (fun s4 => by simp [noopF]) _

lemma af_notMem_do_fit (c : Ctx) (s : St) :
    Entry.disp "after_fit" ∉ (_do_fit c s).log := by
  simp only [_do_fit]
  exact af_notMem_do_fit_go c _ 0 _

/-! ### Claim C1 -/

/-- Claim C1, amended.  `_with_events(f, phase, cancel_kind, final)` first
dispatches `before_{phase}` and then runs the body (first conjunct: the trace
of the try region is the before-dispatch trace followed by the body trace);
when the try region completes normally, or raises exactly `cancel_kind` — in
which case `after_cancel_{phase}` is dispatched and the signal is not
propagated further — and provided this `after_cancel` dispatch raises nothing
(hypothesis `hc`), it then dispatches `after_{phase}` exactly once (second
conjunct), and, provided that dispatch also raises nothing, finally invokes
`on_finally`, whose state, trace and exception are surfaced unchanged (third
conjunct).  The amendment the code forces: when the `after_cancel_{phase}` or
`after_{phase}` dispatch itself raises, whatever follows it is skipped — in
particular an exception raised by the `after_{phase}` dispatch propagates and
`on_finally` is never invoked (fourth conjunct). -/
theorem c1_with_events_bracketing (H : Handlers) (f : St → Out) (nm : String)
    (ex : CancelKind) (final : St → Out) (s sc : St) (lc : List Entry)
    (hc : ((tryPhase H f nm s).exc = none ∧ sc = (tryPhase H f nm s).st ∧ lc = [])
        ∨ ((tryPhase H f nm s).exc = some (Exc.cancel ex) ∧
            call_one H ("after_cancel_" ++ nm) (tryPhase H f nm s).st = ⟨sc, lc, none⟩)) :
    ((call_one H ("before_" ++ nm) s).exc = none →
        (tryPhase H f nm s).log =
          (call_one H ("before_" ++ nm) s).log ++
            (f (call_one H ("before_" ++ nm) s).st).log)
    ∧ (valid_events.contains ("after_" ++ nm) = true →
        (call_one H ("after_" ++ nm) sc).log.count (Entry.disp ("after_" ++ nm)) = 1)
    ∧ ((call_one H ("after_" ++ nm) sc).exc = none →
        with_events H f nm ex final s =
          ⟨(final (call_one H ("after_" ++ nm) sc).st).st,
            (tryPhase H f nm s).log ++ lc ++ (call_one H ("after_" ++ nm) sc).log ++
              (final (call_one H ("after_" ++ nm) sc).st).log,
            (final (call_one H ("after_" ++ nm) sc).st).exc⟩)
    ∧ (∀ e, (call_one H ("after_" ++ nm) sc).exc = some e →
        with_events H f nm ex final s =
          ⟨(call_one H ("after_" ++ nm) sc).st,
            (tryPhase H f nm s).log ++ lc ++ (call_one H ("after_" ++ nm) sc).log,
            some e⟩) := by
  refine ⟨?_, ?_, ?_, ?_⟩
  · intro hbe
    simp only [tryPhase, hbe]
  · intro hv
    exact call_one_count_disp_self H _ sc hv
  · intro haf
    rcases hc with ⟨hexc, hsc, hlc⟩ | ⟨hexc, hac⟩
    · subst hsc; subst hlc
      simp only [with_events, hexc, haf, List.append_nil]
    · simp only [with_events, hexc, if_true, hac, haf]
  · intro e haf
    rcases hc with ⟨hexc, hsc, hlc⟩ | ⟨hexc, hac⟩
    · subst hsc; subst hlc
      simp only [with_events, hexc, haf, List.append_nil]
    · simp only [with_events, hexc, if_true, hac, haf]

/-- A body that completes normally without touching the state. -/
def bodyOk (s : St) : Out := ⟨s, [], none⟩

/-- A body that raises `CancelFitException` immediately. -/
def bodyRaiseFit (s : St) : Out := ⟨s, [], some (Exc.cancel CancelKind.fit)⟩

/-- Handlers that do nothing for every callback and event. -/
def benignH : Handlers := fun _ _ s => (s, none)

/-- A single callback whose handler raises a plain error on `after_fit` and
does nothing otherwise. -/
def boomAfterFitH : Handlers := fun _ ev s =>
  if ev == "after_fit" then (s, some (Exc.err "boom")) else (s, none)

/-- A learner with one registered callback with default flags. -/
def oneCbSt : St := { cbs := [{ name := "BoomCb", order := 0 }] }

/-- Claim C1 counterexample: with one callback whose `after_fit` handler raises
a plain error, the body of the fit bracket completes normally, yet
`on_finally` is never invoked and the error propagates out of
`_with_events` — refuting the claim that whenever the body completes normally
the bracket dispatches `after_{phase}` and finally invokes `on_finally`. -/
theorem c1_counterexample :
    (tryPhase boomAfterFitH bodyOk "fit" oneCbSt).exc = none ∧
    Entry.fin ∉
      (with_events boomAfterFitH bodyOk "fit" CancelKind.fit end_cleanup oneCbSt).log ∧
    (with_events boomAfterFitH bodyOk "fit" CancelKind.fit end_cleanup oneCbSt).exc
      ≠ none := by decide

/-- Witness for claim C1: the bracketing theorem applied to the benign
handlers, the trivial body and the cleanup finaliser on a callback-free
learner. -/
theorem c1_with_events_bracketing_witness :
    with_events benignH bodyOk "fit" CancelKind.fit end_cleanup ({} : St) =
      ⟨{}, [Entry.disp "before_fit", Entry.disp "after_fit", Entry.fin], none⟩ ∧
    (call_one benignH ("after_" ++ "fit") ({} : St)).log.count
      (Entry.disp ("after_" ++ "fit")) = 1 := by
  have h := c1_with_events_bracketing benignH bodyOk "fit" CancelKind.fit end_cleanup
    ({} : St) (tryPhase benignH bodyOk "fit" ({} : St)).st []
    (Or.inl ⟨rfl, rfl, rfl⟩)
  refine ⟨?_, h.2.1 (by decide)⟩
  have h3 := h.2.2.1 (by decide)
  rw [h3]
  decide

/-! ### Claim C2 -/

/-- Claim C2, amended.  First conjunct (phase-exactness): a
`CancelFitException` reaching any phase bracket whose own cancel kind is not
`fit` passes through unchanged — the inner boundary dispatches nothing
further and does not swallow the signal, because `except ex` catches only the
bracket-specific kind.  Second conjunct: when `CancelFitException` propagates
out of the body of the fit bracket (it can be raised at any nesting level —
the first conjunct lifts it through every inner boundary), and provided the
closing `after_cancel_fit` and `after_fit` dispatches themselves raise
nothing, the whole `fit` call terminates without surfacing an exception,
dispatches `after_fit` exactly once over the whole run, and runs the
`_end_cleanup` finaliser last.  The proviso is what the code forces: a
handler that raises during the closing dispatches makes that exception
surface and skips the cleanup (see the counterexample). -/
theorem c2_cancel_fit_terminates :
    (∀ (H : Handlers) (f : St → Out) (nm : String) (ex : CancelKind)
        (final : St → Out) (s : St),
        ex ≠ CancelKind.fit →
        (tryPhase H f nm s).exc = some (Exc.cancel CancelKind.fit) →
        (with_events H f nm ex final s).st = (tryPhase H f nm s).st ∧
        (with_events H f nm ex final s).log = (tryPhase H f nm s).log ∧
        (with_events H f nm ex final s).exc = some (Exc.cancel CancelKind.fit))
    ∧
    (∀ (c : Ctx) (n : Nat) (s : St),
        (tryPhase c.H (_do_fit c) "fit" { s with n_epoch := n }).exc
            = some (Exc.cancel CancelKind.fit) →
        (call_one c.H "after_cancel_fit"
            (tryPhase c.H (_do_fit c) "fit" { s with n_epoch := n }).st).exc = none →
        (call_one c.H "after_fit"
            (call_one c.H "after_cancel_fit"
              (tryPhase c.H (_do_fit c) "fit" { s with n_epoch := n }).st).st).exc
          = none →
        (fit c n s).exc = none ∧
        (fit c n s).log.count (Entry.disp "after_fit") = 1 ∧
        (fit c n s).log.getLast? = some Entry.fin) := by
  constructor
  · intro H f nm ex final s hex hexc
    simp only [with_events, hexc]
    rw [if_neg fun h => hex h.symm]
    exact ⟨rfl, rfl, rfl⟩
  · intro c n s h1 h2 h3
    have e1 : ("after_cancel_" ++ "fit" : String) = "after_cancel_fit" := rfl
    have e2 : ("after_" ++ "fit" : String) = "after_fit" := rfl
    have hwe : fit c n s =
        ⟨(call_one c.H "after_fit"
            (call_one c.H "after_cancel_fit"
              (tryPhase c.H (_do_fit c) "fit" { s with n_epoch := n }).st).st).st,
          (((tryPhase c.H (_do_fit c) "fit" { s with n_epoch := n }).log ++
              (call_one c.H "after_cancel_fit"
                (tryPhase c.H (_do_fit c) "fit" { s with n_epoch := n }).st).log) ++
            (call_one c.H "after_fit"
              (call_one c.H "after_cancel_fit"
                (tryPhase c.H (_do_fit c) "fit" { s with n_epoch := n }).st).st).log) ++
            [Entry.fin],
          none⟩ := by
      simp only [fit, with_events, e1, e2, h1, h2, h3, if_true, end_cleanup]
    have ct : (tryPhase c.H (_do_fit c) "fit" { s with n_epoch := n }).log.count
        (Entry.disp "after_fit") = 0 :=
      List.count_eq_zero.mpr
        (notMem_tryPhase (by decide) (fun s4 => af_notMem_do_fit c s4) _)
    have cac : (call_one c.H "after_cancel_fit"
        (tryPhase c.H (_do_fit c) "fit" { s with n_epoch := n }).st).log.count
          (Entry.disp "after_fit") = 0 :=
      call_one_count_disp_ne c.H "after_cancel_fit" "after_fit" _ (by decide)
    have caf : (call_one c.H "after_fit"
        (call_one c.H "after_cancel_fit"
          (tryPhase c.H (_do_fit c) "fit" { s with n_epoch := n }).st).st).log.count
          (Entry.disp "after_fit") = 1 :=
      call_one_count_disp_self c.H "after_fit" _ (by decide)
    refine ⟨by rw [hwe], ?_, ?_⟩
    · rw [hwe]
      simp [List.count_append, ct, cac, caf]
    · rw [hwe]
      exact List.getLast?_concat _

/-- One callback whose handler raises `CancelFitException` on `before_epoch`
and a plain error on `after_fit`. -/
def cancelAndBoomH : Handlers := fun _ ev s =>
  if ev == "before_epoch" then (s, some (Exc.cancel CancelKind.fit))
  else if ev == "after_fit" then (s, some (Exc.err "boom")) else (s, none)

/-- Context for the C2 counterexample. -/
def cancelAndBoomCtx : Ctx := ⟨cancelAndBoomH, fun xs => xs.sum, fun p ys => p + ys.sum⟩

/-- Claim C2 counterexample: a handler raises `CancelFitException` at the
epoch nesting level (it reaches the fit boundary, first conjunct) — yet,
because the same callback raises a plain error during the closing `after_fit`
dispatch, `fit` surfaces an exception and the `_end_cleanup` finaliser never
runs, refuting the claim as stated. -/
theorem c2_counterexample :
    (tryPhase cancelAndBoomCtx.H (_do_fit cancelAndBoomCtx) "fit"
        { oneCbSt with n_epoch := 1 }).exc = some (Exc.cancel CancelKind.fit) ∧
    (fit cancelAndBoomCtx 1 oneCbSt).exc ≠ none ∧
    Entry.fin ∉ (fit cancelAndBoomCtx 1 oneCbSt).log := by decide

/-- One callback whose handler raises `CancelFitException` on `before_epoch`
and does nothing otherwise. -/
def fitCancellerH : Handlers := fun _ ev s =>
  if ev == "before_epoch" then (s, some (Exc.cancel CancelKind.fit)) else (s, none)

/-- Context for the C2 witness. -/
def fitCancellerCtx : Ctx := ⟨fitCancellerH, fun xs => xs.sum, fun p ys => p + ys.sum⟩

/-- Witness for claim C2: the pass-through conjunct applied to an epoch
bracket whose body raises `CancelFitException`, and the fit-level conjunct
applied to a learner whose single callback cancels the fit on
`before_epoch`. -/
theorem c2_cancel_fit_terminates_witness :
    (with_events benignH bodyRaiseFit "epoch" CancelKind.epoch noopF ({} : St)).exc
        = some (Exc.cancel CancelKind.fit) ∧
    (fit fitCancellerCtx 1 oneCbSt).exc = none ∧
    (fit fitCancellerCtx 1 oneCbSt).log.count (Entry.disp "after_fit") = 1 ∧
    (fit fitCancellerCtx 1 oneCbSt).log.getLast? = some Entry.fin := by
  have hA := c2_cancel_fit_terminates.1 benignH bodyRaiseFit "epoch" CancelKind.epoch
    noopF ({} : St) (by decide) (by decide)
  have hB := c2_cancel_fit_terminates.2 fitCancellerCtx 1 oneCbSt (by decide) (by decide)
    (by decide)
  exact ⟨hA.2.2, hB.1, hB.2.1, hB.2.2⟩

/-! ### Claim C4 -/

/-- Scenario handlers for the within-epoch claim: callback 0 plays the
`TrainEvalCallback` role (sets `training` on `before_train`/`before_validate`),
callback 1 raises `CancelTrainException` on every `before_batch` it receives,
callback 2 counts the `after_batch` events it receives in the scratch cell. -/
def epochScenarioH : Handlers := fun i ev s =>
  match i, ev with
  | 0, "before_train" => ({ s with training := true }, none)
  | 0, "before_validate" => ({ s with training := false }, none)
  | 1, "before_batch" => (s, some (Exc.cancel CancelKind.train))
  | 2, "after_batch" => ({ s with scratch := [s.scratch.headD 0 + 1] }, none)
  | _, _ => (s, none)

/-- Context for the within-epoch scenario. -/
def epochScenarioCtx : Ctx := ⟨epochScenarioH, fun xs => xs.sum, fun p ys => p + ys.sum⟩

/-- Learner for the within-epoch scenario: a `TrainEvalCallback`-like callback
(order -10, `run_valid=False`), the train-cancelling callback
(`run_valid=False` so it is silent during validation) and the counting
callback; three train batches and two validation batches. -/
def epochScenarioSt : St :=
  { cbs := [⟨"TrainEvalCallback", -10, true, true, false⟩,
            ⟨"Canceller", 0, true, true, false⟩,
            ⟨"Counter", 0, true, true, true⟩],
    dls_train := [[1, 2], [3, 4], [5, 6]],
    dls_valid := [[7, 8], [9, 10]] }

/-- Claim C4, amended.  First conjunct: `_do_epoch` runs the train subtree and
then, whenever the train subtree returns normally — which includes the case
where its own `CancelTrainException` was swallowed at the train boundary —
runs the validate subtree on the resulting state, surfacing the validate
subtree result.  Second conjunct (the concrete scenario of the claim, a
callback raising `CancelTrainException` on the first `before_batch` of the
train phase): the epoch completes without exception, `after_cancel_train` is
dispatched exactly once, no train batch completes, and validation still
processes all its batches (both validation `after_batch` events fire and the
counter reaches 2).  The amendment the code forces: if some handler raises
anything further at the train boundary (for example during the
`after_cancel_train` dispatch), the train subtree no longer returns normally
and validation is skipped (see the counterexample). -/
theorem c4_validate_after_train :
    (∀ (c : Ctx) (s : St),
        (_do_epoch_train c s).exc = none →
        (_do_epoch c s).st = (_do_epoch_validate c (_do_epoch_train c s).st).st ∧
        (_do_epoch c s).log =
          (_do_epoch_train c s).log ++
            (_do_epoch_validate c (_do_epoch_train c s).st).log ∧
        (_do_epoch c s).exc = (_do_epoch_validate c (_do_epoch_train c s).st).exc)
    ∧
    ((_do_epoch epochScenarioCtx epochScenarioSt).exc = none ∧
      (_do_epoch epochScenarioCtx epochScenarioSt).log.count
        (Entry.disp "after_cancel_train") = 1 ∧
      (_do_epoch epochScenarioCtx epochScenarioSt).log.count
        (Entry.call 1 "before_batch") = 1 ∧
      (_do_epoch epochScenarioCtx epochScenarioSt).log.count
        (Entry.disp "after_batch") = 2 ∧
      (_do_epoch epochScenarioCtx epochScenarioSt).st.scratch = [2]) := by
  constructor
  · intro c s h
    simp only [_do_epoch, andThen, h]
    exact ⟨trivial, trivial, trivial⟩
  · exact ⟨by decide, by decide, by decide, by decide, by decide⟩

/-- One callback that raises `CancelTrainException` on `before_batch` and a
plain error on `after_cancel_train`. -/
def trainCancelBoomH : Handlers := fun _ ev s =>
  if ev == "before_batch" then (s, some (Exc.cancel CancelKind.train))
  else if ev == "after_cancel_train" then (s, some (Exc.err "boom")) else (s, none)

/-- Context for the C4 counterexample. -/
def trainCancelBoomCtx : Ctx := ⟨trainCancelBoomH, fun xs => xs.sum, fun p ys => p + ys.sum⟩

/-- Learner for the C4 counterexample: one default-flag callback, one train
batch, one validation batch. -/
def trainCancelBoomSt : St :=
  { cbs := [{ name := "CancelAndBoom", order := 0 }],
    dls_train := [[1, 2]], dls_valid := [[3, 4]] }

/-- Claim C4 counterexample: a `CancelTrainException` is raised inside the
train phase (on the first `before_batch` — the handler invocation is in the
trace), yet validation of that epoch processes none of its batches, because
the same callback raises a plain error during the `after_cancel_train`
dispatch and `_do_epoch` propagates it before reaching
`_do_epoch_validate` — refuting the claim as stated. -/
theorem c4_counterexample :
    Entry.call 0 "before_batch" ∈ (_do_epoch trainCancelBoomCtx trainCancelBoomSt).log ∧
    (_do_epoch trainCancelBoomCtx trainCancelBoomSt).exc ≠ none ∧
    (_do_epoch trainCancelBoomCtx trainCancelBoomSt).log.count
      (Entry.disp "before_validate") = 0 := by decide

/-- Witness for claim C4: the unconditional-sequencing conjunct applied to the
concrete scenario, whose train subtree swallows its own cancellation. -/
theorem c4_validate_after_train_witness :
    (_do_epoch epochScenarioCtx epochScenarioSt).log =
      (_do_epoch_train epochScenarioCtx epochScenarioSt).log ++
        (_do_epoch_validate epochScenarioCtx
          (_do_epoch_train epochScenarioCtx epochScenarioSt).st).log :=
  (c4_validate_after_train.1 epochScenarioCtx epochScenarioSt (by decide)).2.1

/-! ### Per-callback gating helpers -/

/-- When the `self.run and _run` gate of `Callback.__call__` holds, the
handler is invoked: exactly one invocation entry is emitted. -/
lemma cbCall_gate_true (H : Handlers) (i : Nat) (ev : String) (s : St) (cb : Cb)
    (hcb : s.cbs[i]? = some cb)
    (hg : (cb.run && (!(inner_loop.contains ev) || (cb.run_train && s.training) ||
        (cb.run_valid && !s.training))) = true) :
    (cbCall H i ev s).log = [Entry.call i ev] := by
  simp only [cbCall, hcb]
  rw [if_pos hg]
  rcases hH : H i ev s with ⟨s1, e⟩
  rcases e with _ | e
  · rfl
  rcases e with k | m <;> rfl

/-- When the gate of `Callback.__call__` fails, the handler is not invoked,
nothing is raised, and the state is left unchanged apart from the `after_fit`
run-reset. -/
lemma cbCall_gate_false (H : Handlers) (i : Nat) (ev : String) (s : St) (cb : Cb)
    (hcb : s.cbs[i]? = some cb)
    (hg : (cb.run && (!(inner_loop.contains ev) || (cb.run_train && s.training) ||
        (cb.run_valid && !s.training))) = false) :
    cbCall H i ev s = ⟨if ev == "after_fit" then setRun s i else s, [], none⟩ := by
  simp only [cbCall, hcb]
  rw [if_neg (by rw [hg]; decide)]

/-! ### Claim C5 -/

/-- Claim C5: when the gate of `Callback.__call__` admits the handler and the
handler raises, a cancellation signal of any of the seven kinds is re-raised
unmodified, while any other exception is re-raised wrapped in a message that
names the offending callback class and the event name (`wrap_msg`, mirroring
the `modify_exception` f-string); in both cases something is raised — the
dispatcher never silently swallows an exception raised by a handler.  This
holds for every callback, every event, every state and every handler
behaviour. -/
theorem c5_error_wrapping (H : Handlers) (i : Nat) (ev : String) (s : St) (cb : Cb)
    (hcb : s.cbs[i]? = some cb)
    (hg : (cb.run && (!(inner_loop.contains ev) || (cb.run_train && s.training) ||
        (cb.run_valid && !s.training))) = true) :
    (∀ s1 k, H i ev s = (s1, some (Exc.cancel k)) →
        cbCall H i ev s = ⟨s1, [Entry.call i ev], some (Exc.cancel k)⟩) ∧
    (∀ s1 m, H i ev s = (s1, some (Exc.err m)) →
        cbCall H i ev s =
          ⟨s1, [Entry.call i ev], some (Exc.err (wrap_msg cb.name ev m))⟩) ∧
    (∀ s1 e, H i ev s = (s1, some e) → (cbCall H i ev s).exc ≠ none) := by
  refine ⟨?_, ?_, ?_⟩
  · intro s1 k hH
    simp only [cbCall, hcb]
    rw [if_pos hg, hH]
  · intro s1 m hH
    simp only [cbCall, hcb]
    rw [if_pos hg, hH]
  · intro s1 e hH
    simp only [cbCall, hcb]
    rw [if_pos hg, hH]
    rcases e with k | m <;> simp

/-- A handler that raises a plain division error on `after_loss`. -/
def divErrH : Handlers := fun _ ev s =>
  if ev == "after_loss" then (s, some (Exc.err "division by zero")) else (s, none)

/-- Witness for claim C5: a handler raising a plain error on `after_loss` in a
training-mode learner has it re-raised wrapped with the callback class name
and the event name. -/
theorem c5_error_wrapping_witness :
    cbCall divErrH 0 "after_loss" { oneCbSt with training := true } =
      ⟨{ oneCbSt with training := true }, [Entry.call 0 "after_loss"],
        some (Exc.err (wrap_msg "BoomCb" "after_loss" "division by zero"))⟩ :=
  (c5_error_wrapping divErrH 0 "after_loss" { oneCbSt with training := true }
      { name := "BoomCb", order := 0 } (by decide) (by decide)).2.1
    { oneCbSt with training := true } "division by zero" (by decide)

/-! ### Claim C6 -/

/-- Claim C6: per-callback gating of the train/validate-scoped events.  With
`run` left true: a callback with `run_train=True, run_valid=False` receives a
scoped event exactly when the session is in training mode (first conjunct);
symmetrically, with `run_train=False, run_valid=True` it receives a scoped
event exactly when the session is not in training mode (second conjunct); and
every callback with `run=True` receives all unscoped events — `before_fit`,
`before_epoch`, `after_epoch`, `after_fit` and the other non-batch-level
events — whatever `training`, `run_train` and `run_valid` are (third
conjunct).  Received means the handler is invoked (one invocation entry);
skipped means no invocation entry and nothing raised. -/
theorem c6_run_valid_gating (H : Handlers) (i : Nat) (ev : String) (s : St) (cb : Cb)
    (hcb : s.cbs[i]? = some cb) (hrun : cb.run = true) :
    (cb.run_train = true → cb.run_valid = false → inner_loop.contains ev = true →
        (cbCall H i ev s).log = if s.training then [Entry.call i ev] else []) ∧
    (cb.run_train = false → cb.run_valid = true → inner_loop.contains ev = true →
        (cbCall H i ev s).log = if s.training then [] else [Entry.call i ev]) ∧
    (inner_loop.contains ev = false →
        (cbCall H i ev s).log = [Entry.call i ev]) := by
  refine ⟨?_, ?_, ?_⟩
  · intro hrt hrv hin
    have hin2 : ev ∈ inner_loop := by simpa using hin
    cases htr : s.training with
    | true =>
      rw [if_pos rfl]
      exact cbCall_gate_true H i ev s cb hcb (by simp [hrun, hrt, hrv, hin2, htr])
    | false =>
      rw [if_neg (by simp)]
      rw [cbCall_gate_false H i ev s cb hcb (by simp [hrun, hrt, hrv, hin2, htr])]
  · intro hrt hrv hin
    have hin2 : ev ∈ inner_loop := by simpa using hin
    cases htr : s.training with
    | true =>
      rw [if_pos rfl]
      rw [cbCall_gate_false H i ev s cb hcb (by simp [hrun, hrt, hrv, hin2, htr])]
    | false =>
      rw [if_neg (by simp)]
      exact cbCall_gate_true H i ev s cb hcb (by simp [hrun, hrt, hrv, hin2, htr])
  · intro hin
    have hin2 : ev ∉ inner_loop := by simpa using hin
    exact cbCall_gate_true H i ev s cb hcb (by simp [hrun, hin2])

/-- A `run_valid=False` callback used in the gating witness. -/
def trainOnlyCb : Cb := ⟨"TrainOnly", 0, true, true, false⟩

/-- Witness for claim C6: a `run_valid=False` callback receives `before_batch`
while training, does not receive it during validation, and receives
`before_fit` in both modes. -/
theorem c6_run_valid_gating_witness :
    (cbCall benignH 0 "before_batch" { cbs := [trainOnlyCb], training := true }).log
        = [Entry.call 0 "before_batch"] ∧
    (cbCall benignH 0 "before_batch" { cbs := [trainOnlyCb], training := false }).log
        = [] ∧
    (cbCall benignH 0 "before_fit" { cbs := [trainOnlyCb], training := false }).log
        = [Entry.call 0 "before_fit"] := by
  have h1 := (c6_run_valid_gating benignH 0 "before_batch"
    { cbs := [trainOnlyCb], training := true } trainOnlyCb (by decide) (by decide)).1
    (by decide) (by decide) (by decide)
  have h2 := (c6_run_valid_gating benignH 0 "before_batch"
    { cbs := [trainOnlyCb], training := false } trainOnlyCb (by decide) (by decide)).1
    (by decide) (by decide) (by decide)
  have h3 := (c6_run_valid_gating benignH 0 "before_fit"
    { cbs := [trainOnlyCb], training := false } trainOnlyCb (by decide) (by decide)).2.2
    (by decide)
  exact ⟨by rw [h1]; decide, by rw [h2]; decide, h3⟩

/-! ### Claim C7 -/

/-- Claim C7 counterexample: with `n_inp` unset, a batch of length 1 is split
into all-inputs and an empty target list (`1 if len(b)==1 else len(b)-1`
yields 1), not into an empty input and the last element as target — the
default split is not all-but-last/last for every length. -/
theorem c7_counterexample : ¬ _split none [(5 : Int)] = ([], [5]) := by decide

/-- Claim C7, amended.  `_split` divides the batch at a configurable
input-count: with `n_inp` set to `k` the first `k` elements are the inputs and
the rest the targets (third conjunct: the split is a take/drop partition of
the batch at `k`).  With `n_inp` unset, the default makes all-but-last
elements inputs and the last element the target for every batch of length at
least two (first conjunct) — but not regardless of length: a single-element
batch is treated as unlabeled, becoming wholly input with no target (second
conjunct). -/
theorem c7_split_default :
    (∀ (b : List Int) (x : Int), b ≠ [] → _split none (b ++ [x]) = (b, [x])) ∧
    (∀ x : Int, _split none [x] = ([x], [])) ∧
    (∀ (k : Nat) (b : List Int),
        (_split (some k) b).1 ++ (_split (some k) b).2 = b ∧
        (_split (some k) b).1.length = min k b.length) := by
  refine ⟨?_, fun x => rfl, fun k b => ⟨List.take_append_drop k b, List.length_take k b⟩⟩
  intro b x hb
  have hlen : b.length ≠ 0 := fun h => hb (List.length_eq_zero.mp h)
  have hcond : ((b.length + 1 == 1) : Bool) = false := by
    rw [beq_eq_false_iff_ne]
    omega
  simp only [_split, Option.getD_none, List.length_append, List.length_singleton,
    Nat.add_sub_cancel, hcond, Bool.false_eq_true, if_false]
  rw [List.take_left, List.drop_left]

/-- Witness for claim C7: the default split of the two-element batch `[1, 2]`
is `([1], [2])`, and the configured split of `[1, 2, 3]` at `n_inp = 2`
partitions it with two inputs. -/
theorem c7_split_default_witness :
    _split none ([(1 : Int)] ++ [2]) = ([1], [2]) ∧
    (_split (some 2) [(1 : Int), 2, 3]).1 ++ (_split (some 2) [(1 : Int), 2, 3]).2
        = [1, 2, 3] :=
  ⟨c7_split_default.1 [1] 2 (by decide), (c7_split_default.2.2 2 [1, 2, 3]).1⟩

/-! ### Claim C8 -/

/-- A callback instance used in the registry claims. -/
def cbX : Cb := { name := "X", order := 0 }

/-- Claim C8 counterexample: removing an instance that is not registered
silently does nothing — the state is returned unchanged and nothing is
raised — and registering the same instance twice silently stores two
copies, again raising nothing; the code does not fail loudly on either
misuse. -/
theorem c8_counterexample :
    remove_cb ({} : St) cbX = ({}, none) ∧
    (add_cb (add_cb ({} : St) cbX).1 cbX).1.cbs = [cbX, cbX] ∧
    (add_cb (add_cb ({} : St) cbX).1 cbX).2 = none := by decide

/-- Claim C8, amended.  `remove_cb` on an instance that is not currently
registered is a silent no-op: the membership guard `if cb in self.cbs` makes
it return the state unchanged, raising nothing (first conjunct).  `add_cb`
performs no duplicate check: registering an already-registered instance again
appends a second copy and raises nothing (second conjunct).  Failing loudly
on these misuses is a recommendation of the specification for
reimplementations, not the behaviour of the reference code. -/
theorem c8_remove_add_silent :
    (∀ (s : St) (cb : Cb), cb ∉ s.cbs → remove_cb s cb = (s, none)) ∧
    (∀ (s : St) (cb : Cb),
        (add_cb (add_cb s cb).1 cb).1.cbs.count cb = s.cbs.count cb + 2 ∧
        (add_cb (add_cb s cb).1 cb).2 = none) := by
  constructor
  · intro s cb h
    simp [remove_cb, h]
  · intro s cb
    refine ⟨?_, rfl⟩
    simp [add_cb, List.count_append]

/-- Witness for claim C8: removing the unregistered instance from the empty
learner returns it unchanged with nothing raised, and double registration on
the empty learner stores two copies. -/
theorem c8_remove_add_silent_witness :
    remove_cb ({ training := true } : St) cbX = ({ training := true }, none) ∧
    (add_cb (add_cb ({ training := true } : St) cbX).1 cbX).1.cbs.count cbX
        = ({ training := true } : St).cbs.count cbX + 2 :=
  ⟨c8_remove_add_silent.1 { training := true } cbX (by decide),
   (c8_remove_add_silent.2 { training := true } cbX).1⟩

/-! ### Claim C9 -/

/-- Claim C9, amended.  The simplified `Callback.__call__` of the Learner
part 2 notebook and the full version of the lesson14 notebook agree exactly on
the states and events where the gating they differ on is immaterial: when
`run` is true, the event is outside the train/validate-scoped subset or the
`run_train`/`run_valid` gate admits it, and the event is not `after_fit`
(whose run-reset only the full version performs), the two versions return the
same result, invoke the same handler and leave the same state.  They are not
equivalent in general (see the counterexample): the simplified version omits
the per-phase gating and the `after_fit` run-reset, and faults on a `run=False`
callback (its `res` local is unbound). -/
theorem c9_call_equiv (H : Handlers) (i : Nat) (ev : String) (s : St) (cb : Cb)
    (hcb : s.cbs[i]? = some cb) (hrun : cb.run = true)
    (hgate : inner_loop.contains ev = false ∨ (cb.run_train && s.training) = true ∨
      (cb.run_valid && !s.training) = true)
    (hev : ev ≠ "after_fit") :
    cbCallSimple H i ev s = cbCall H i ev s := by
  have hg : (cb.run && (!(inner_loop.contains ev) || (cb.run_train && s.training) ||
      (cb.run_valid && !s.training))) = true := by
    rcases hgate with h | h | h
    · have h2 : ev ∉ inner_loop := by simpa using h
      simp [hrun, h2]
    · simp [hrun, h]
    · simp [hrun, h]
  have hne : (ev == "after_fit") = false := beq_eq_false_iff_ne.mpr hev
  simp only [cbCallSimple, cbCall, hcb]
  rw [if_pos hg, if_pos hrun]
  rcases hH : H i ev s with ⟨s1, e⟩
  rcases e with _ | e
  · simp [hne]
  · rcases e with k | m <;> rfl

/-- A `run_valid=False` callback with `run` and `run_train` left true. -/
def gateCb : Cb := ⟨"GateCb", 0, true, true, false⟩

/-- A learner holding only `gateCb`, not in training mode. -/
def gateSt : St := { cbs := [gateCb] }

/-- A handler that disables its own callback while handling `after_fit`. -/
def runFlipH : Handlers := fun _ ev s =>
  if ev == "after_fit" then ({ s with cbs := [⟨"GateCb", 0, false, true, false⟩] }, none)
  else (s, none)

/-- Claim C9 counterexample: the two presented versions of
`Callback.__call__` are not equivalent.  On a `run_valid=False` callback
outside training mode the full version skips the `before_batch` handler while
the simplified version invokes it; and on `after_fit` the full version resets
the `run` flag a handler just cleared while the simplified version leaves it
cleared — same callback state and event, different result. -/
theorem c9_counterexample :
    cbCallSimple benignH 0 "before_batch" gateSt ≠ cbCall benignH 0 "before_batch" gateSt
    ∧ cbCallSimple runFlipH 0 "after_fit" gateSt ≠ cbCall runFlipH 0 "after_fit" gateSt := by
  decide

/-- Witness for claim C9: on the unscoped `before_fit` event the two versions
of `Callback.__call__` agree. -/
theorem c9_call_equiv_witness :
    cbCallSimple benignH 0 "before_fit" gateSt = cbCall benignH 0 "before_fit" gateSt :=
  c9_call_equiv benignH 0 "before_fit" gateSt gateCb (by decide) (by decide)
    (Or.inl (by decide)) (by decide)

/-! ### Claim C10 -/

/-- Claim C10: the frame effect of `Callback.__call__` (the full version) on
the `run` flag, for handlers that do not themselves touch the callback list.
Dispatching `after_fit` to a callback always leaves its `run` flag true,
whatever its previous value: when the gate admitted the handler `run` was
already true and the trailing reset keeps it true, and when the callback was
skipped (`run=False`) the reset still fires, silently re-enabling it for the
next fit (first conjunct).  Dispatching any other event never changes the
callback list, in particular no `run` flag (second conjunct). -/
theorem c10_after_fit_run_reset (H : Handlers) (i : Nat) (s : St)
    (hH : ∀ (j : Nat) (e : String) (t : St), ((H j e t).1).cbs = t.cbs) :
    (∀ cb, s.cbs[i]? = some cb →
        (cbCall H i "after_fit" s).st.cbs[i]? = some { cb with run := true }) ∧
    (∀ ev, ev ≠ "after_fit" → (cbCall H i ev s).st.cbs = s.cbs) := by
  constructor
  · intro cb hcb
    have hlen : i < s.cbs.length := (List.getElem?_eq_some.mp hcb).1
    simp only [cbCall, hcb]
    by_cases hg : (cb.run && (!(inner_loop.contains "after_fit") ||
        (cb.run_train && s.training) || (cb.run_valid && !s.training))) = true
    · rw [if_pos hg]
      have hrun : cb.run = true := by
        simp only [Bool.and_eq_true] at hg
        exact hg.1
      have hcbeq : { cb with run := true } = cb := by
        cases cb; simp_all
      rcases hH2 : H i "after_fit" s with ⟨s1, e⟩
      have hcbs1 : s1.cbs = s.cbs := by
        have h := hH i "after_fit" s
        rw [hH2] at h
        exact h
      rcases e with _ | e
      · simp only [setRun, hcbs1, hcb]
        simp [hcbs1, List.getElem?_set_self', hlen]
      · rcases e with k | m <;>
          simp [hcbs1, hcb, hcbeq]
    · rw [if_neg hg]
      simp only [setRun, hcb]
      simp [List.getElem?_set_self', hlen]
  · intro ev hev
    have hne : (ev == "after_fit") = false := beq_eq_false_iff_ne.mpr hev
    rcases hcb : s.cbs[i]? with _ | cb
    · simp only [cbCall, hcb]
    · simp only [cbCall, hcb]
      by_cases hg : (cb.run && (!(inner_loop.contains ev) ||
          (cb.run_train && s.training) || (cb.run_valid && !s.training))) = true
      · rw [if_pos hg]
        rcases hH2 : H i ev s with ⟨s1, e⟩
        have hcbs1 : s1.cbs = s.cbs := by
          have h := hH i ev s
          rw [hH2] at h
          exact h
        rcases e with _ | e
        · simp [hne, hcbs1]
        · rcases e with k | m <;> simp [hcbs1]
      · rw [if_neg hg]
        simp [hne]

/-- A learner whose single callback has been disabled with `run=False`. -/
def disabledSt : St := { cbs := [⟨"Off", 0, false, true, true⟩] }

/-- Witness for claim C10: dispatching `after_fit` to the disabled callback
re-enables it, and dispatching `before_fit` leaves the callback list
untouched. -/
theorem c10_after_fit_run_reset_witness :
    (cbCall benignH 0 "after_fit" disabledSt).st.cbs[0]? =
      some ⟨"Off", 0, true, true, true⟩ ∧
    (cbCall benignH 0 "before_fit" disabledSt).st.cbs = disabledSt.cbs := by
  have h := c10_after_fit_run_reset benignH 0 disabledSt (fun _ _ _ => rfl)
  exact ⟨h.1 ⟨"Off", 0, false, true, true⟩ (by decide), h.2 "before_fit" (by decide)⟩

end LearnerSpec
